import Mathlib

/-!
# A verification development for the mcspeedrun orchestrator

This file gives a shallow embedding of the core of the repository:

* the log-line parser (`Game.HandleLog` in `game.go`): envelope matching of
  `[HH:MM:SS] [thread/LEVEL]: message` lines, Go `time.Parse`-style
  validation of the timestamp, and the ordered substring-rule table that
  classifies the message into an event kind;
* the session control loop (`Session.Loop`): id validation, the
  active-replica guard, the event dispatch switch that drives the
  idle/overworld/nether/end/credits phase machine, and the active-replica
  selection scan at the top of each iteration;
* the per-connection decision of the proxy accept loop (`Session.Proxy`).

Side effects on the outside world (commands sent to a replica, proxy
retargeting, resets, address refreshes) are modelled as an explicit list of
`Effect` values produced by each step.  Replica-pointer dereferences are made
explicit by letting the dispatcher return `Option`: `none` models a nil
active-pointer dereference, so totality statements are real safety claims.
-/

namespace Mcspeedrun

/-- Substring prefix test on character lists. -/
def startsWithList : List Char → List Char → Bool
  | [], _ => true
  | _ :: _, [] => false
  | p :: ps, c :: cs => p = c && startsWithList ps cs

/-- Substring occurrence test on character lists (any position). -/
def hasSubList (pat : List Char) : List Char → Bool
  | [] => startsWithList pat []
  | c :: cs => startsWithList pat (c :: cs) || hasSubList pat cs

/-- Go `strings.Contains s pat`. -/
def strContains (s pat : String) : Bool :=
  hasSubList pat.toList s.toList

/-- The event value produced by a replica and consumed by the session loop
(Go struct `Event`: GameID, Timestamp, Type, Payload).  Timestamps are
modelled as integers (seconds within the day as produced by the parser). -/
structure Event where
  gameId : Nat
  timestamp : Int
  type : String
  payload : String
  deriving DecidableEq

/-! ## Log parser (`Game.HandleLog`) -/

/-- The bracketed character class of the Go log envelope regular
expression: whitespace (Go regexp `\s` is tab, newline, vertical tab, form
feed, carriage return, space), word characters `[0-9A-Za-z_]`, the forward
slash and the hyphen. -/
def isClassChar (c : Char) : Bool :=
  c = ' ' || c = '\t' || c = '\n' || c = '\x0b' || c = '\x0c' || c = '\r' ||
  c.isAlphanum || c = '_' || c = '/' || c = '-'

/-- Envelope match for the anchored Go regular expression
`logExpression`: an opening bracket, a first group `\d+:\d+:\d+`, the text
"] [", a second group of one or more class characters (see `isClassChar`),
the text "]: ", and a third group `(.+)` running to the end of the line.
Returns the three digit groups of the timestamp and the message text.
Because `:` and `]` are outside `\d` and the class, greedy matching with
backtracking coincides with maximal munch, so this deterministic scan is
exact.  The final `(.+)$` requires a nonempty message without a newline. -/
def parseEnvelope (line : String) : Option (List Char × List Char × List Char × String) :=
  match line.toList with
  | '[' :: rest =>
    let p1 := rest.span Char.isDigit
    if p1.1 = [] then none else
    match p1.2 with
    | ':' :: r2 =>
      let p2 := r2.span Char.isDigit
      if p2.1 = [] then none else
      match p2.2 with
      | ':' :: r4 =>
        let p3 := r4.span Char.isDigit
        if p3.1 = [] then none else
        match p3.2 with
        | ']' :: ' ' :: '[' :: r6 =>
          let pg := r6.span isClassChar
          if pg.1 = [] then none else
          match pg.2 with
          | ']' :: ':' :: ' ' :: msg =>
            if msg = [] then none
            else if msg.any (fun c => c = '\n') then none
            else some (p1.1, p2.1, p3.1, String.mk msg)
          | _ => none
        | _ => none
      | _ => none
    | _ => none
  | _ => none

/-- Numeric value of a digit run. -/
def digitsToNat (ds : List Char) : Nat :=
  ds.foldl (fun acc c => acc * 10 + (c.toNat - 48)) 0

/-- Go `time.Parse "15:04:05"` applied to the three digit groups: each group
must be one or two digits (a third digit would desynchronise the reference
layout) and the values must be a valid time of day.  The result is the
time of day in seconds (the calendar date added by `HandleLog` from
`time.Now()` is irrelevant to event handling and omitted). -/
def parseClock (d1 d2 d3 : List Char) : Option Int :=
  if d1.length = 0 ∨ 2 < d1.length then none
  else if d2.length = 0 ∨ 2 < d2.length then none
  else if d3.length = 0 ∨ 2 < d3.length then none
  else
    let h := digitsToNat d1
    let m := digitsToNat d2
    let s := digitsToNat d3
    if 24 ≤ h ∨ 60 ≤ m ∨ 60 ≤ s then none
    else some ((h * 3600 + m * 60 + s : Nat) : Int)

/-- The classification switch of `HandleLog`: ordered substring rules,
first match wins, exactly as the Go `switch { case strings.Contains ... }`. -/
def classify (text : String) : Option String :=
  if strContains text "> rr" then some "cmd.reset"
  else if strContains text ": Set the time to 0]" then some "cmd.retime"
  else if strContains text "For help, type \"help\"" then some "generated"
  else if strContains text "joined the game" then some "login"
  else if strContains text "[We Need to Go Deeper]" then some "nether"
  else if strContains text "[The End?]" then some "end"
  else if strContains text "[Credits!]" then some "credits"
  else none

/-- Generic first-match-wins evaluation of an ordered (pattern, kind) table. -/
def firstMatch (rules : List (String × String)) (text : String) : Option String :=
  match rules with
  | [] => none
  | (pat, kind) :: rest =>
    if strContains text pat then some kind else firstMatch rest text

/-- The rule table of the implementation, in source order. -/
def codeRules : List (String × String) :=
  [("> rr", "cmd.reset"),
   (": Set the time to 0]", "cmd.retime"),
   ("For help, type \"help\"", "generated"),
   ("joined the game", "login"),
   ("[We Need to Go Deeper]", "nether"),
   ("[The End?]", "end"),
   ("[Credits!]", "credits")]

/-- Modelled from the spec: the six-rule table the specification describes
for the Log Parser ("first match wins, evaluated in this order: reset
command phrase, generation-complete phrase, player-joined phrase,
nether-entry phrase, end-entry phrase, credits phrase"); it has no rule for
the clock-reset feedback line. -/
def specRules : List (String × String) :=
  [("> rr", "cmd.reset"),
   ("For help, type \"help\"", "generated"),
   ("joined the game", "login"),
   ("[We Need to Go Deeper]", "nether"),
   ("[The End?]", "end"),
   ("[Credits!]", "credits")]

/-- Function `Game.HandleLog` for replica `id`: envelope match, timestamp
parse, classification; emits an event only when every stage succeeds. -/
def handleLog (id : Nat) (line : String) : Option Event :=
  match parseEnvelope line with
  | none => none
  | some (d1, d2, d3, msg) =>
    match parseClock d1 d2 d3 with
    | none => none
    | some t =>
      match classify msg with
      | none => none
      | some typ => some ⟨id, t, typ, msg⟩

/-! ## Session control loop (`Session.Loop`) -/

/-- An externally visible action of the session loop: retarget the proxy,
send a chat broadcast (`Game.Say`), send a console command
(`Game.Command`), kill and restart a replica (`Game.Reset`), forward a
throw observation (`Game.HandleThrow`), or refresh a replica's address
(`Game.Refresh`). -/
inductive Effect where
  | proxySet (addr : String)
  | sayMsg (gameId : Nat) (text : String) (color : String)
  | command (gameId : Nat) (cmd : String)
  | resetGame (gameId : Nat)
  | handleThrow (gameId : Nat) (payload : String)
  | refresh (gameId : Nat)
  deriving DecidableEq

/-- The state the session loop reads and writes: the replica count
(`len(s.Replicas)`, fixed at start-up), each replica's `Ready` flag and
address, the active-replica pointer (by id), the phase string `State`
(`""` is idle), the persisted attempt counter and the attempt start time. -/
structure SessionState where
  numReplicas : Nat
  ready : Nat → Bool
  addrs : Nat → String
  active : Option Nat
  state : String
  attempt : Int
  timeStart : Int

/-- The dispatch switch of `Session.Loop`, reached only after both
validations pass.  A Go `switch` on strings is an equality chain, modelled
here in source order.  Handlers other than the `generated` one dereference
`s.Active`; a `none` result models a nil-pointer dereference, so this
function being total on reachable inputs is the loop's memory safety. -/
def dispatch (s : SessionState) (e : Event) : Option (SessionState × List Effect) :=
  if e.type = "cmd.reset" then
    match s.active with
    | none => none
    | some a =>
      some ({ s with
                state := "", attempt := s.attempt + 1,
                ready := Function.update s.ready a false, active := none },
            [Effect.resetGame a])
  else if e.type = "cmd.player" then
    match s.active with
    | none => none
    | some a => some (s, [Effect.handleThrow a e.payload])
  else if e.type = "cmd.pearl" then
    match s.active with
    | none => none
    | some a =>
      some (s, [Effect.handleThrow a e.payload,
                Effect.sayMsg a ("Pearl: [" ++ toString (e.timestamp - s.timeStart) ++ "]") "green"])
  else if e.type = "generated" then
    some ({ s with ready := Function.update s.ready e.gameId true },
          [Effect.refresh e.gameId])
  else if e.type = "login" then
    match s.active with
    | none => none
    | some a =>
      if s.state ≠ "" then some (s, [])
      else some ({ s with state := "overworld", timeStart := e.timestamp },
                 [Effect.sayMsg a ("attempt #" ++ toString s.attempt) "green",
                  Effect.command a "/time set 0",
                  Effect.command a "/save-off"])
  else if e.type = "nether" then
    match s.active with
    | none => none
    | some a =>
      if s.state ≠ "overworld" then some (s, [])
      else some ({ s with state := "nether" },
                 [Effect.sayMsg a ("Nether: [" ++ toString (e.timestamp - s.timeStart) ++ "]") "green"])
  else if e.type = "end" then
    match s.active with
    | none => none
    | some a =>
      if s.state ≠ "nether" then some (s, [])
      else some ({ s with state := "end" },
                 [Effect.sayMsg a ("End: [" ++ toString (e.timestamp - s.timeStart) ++ "]") "green"])
  else if e.type = "credits" then
    match s.active with
    | none => none
    | some a =>
      if s.state ≠ "end" then some (s, [])
      else some ({ s with state := "credits" },
                 [Effect.sayMsg a ("Credits: [" ++ toString (e.timestamp - s.timeStart) ++ "]") "green"])
  else some (s, [])

/-- Handling of one received event: the invalid-id check
(`evt.GameID >= len(s.Replicas)`), then the non-active-replica check
(`(s.Active == nil || evt.GameID != s.Active.ID) && evt.Type != "generated"`),
then the dispatch switch.  Dropped events produce no state change and no
effect. -/
def stepOpt (s : SessionState) (e : Event) : Option (SessionState × List Effect) :=
  if s.numReplicas ≤ e.gameId then some (s, [])
  else if (s.active = none ∨ s.active ≠ some e.gameId) ∧ e.type ≠ "generated" then
    some (s, [])
  else dispatch s e

/-- Total event step (`stepOpt` never yields `none`, as proved below). -/
def step (s : SessionState) (e : Event) : SessionState × List Effect :=
  (stepOpt s e).getD (s, [])

/-- An event survives both validation checks and reaches the dispatch
switch. -/
def accepted (s : SessionState) (e : Event) : Prop :=
  e.gameId < s.numReplicas ∧
  ¬((s.active = none ∨ s.active ≠ some e.gameId) ∧ e.type ≠ "generated")

instance (s : SessionState) (e : Event) : Decidable (accepted s e) := by
  unfold accepted; infer_instance

/-- The scan `for _, replica := range s.Replicas { if replica.Ready ... }`,
over an explicit key-iteration order (a Go map enumerates each key exactly
once in an unspecified order): the first id in `order` whose replica is
ready. -/
def findReady (ready : Nat → Bool) : List Nat → Option Nat
  | [] => none
  | i :: rest => if ready i then some i else findReady ready rest

/-- The selection block at the top of each `Session.Loop` iteration: when
no replica is active, the proxy is first told to stop forwarding, then the
replicas are scanned in map-iteration order and the first ready one is
promoted to active, with its address pushed to the proxy. -/
def selectActive (order : List Nat) (s : SessionState) : SessionState × List Effect :=
  match s.active with
  | some _ => (s, [])
  | none =>
    match findReady s.ready order with
    | some j => ({ s with active := some j },
                 [Effect.proxySet "", Effect.proxySet (s.addrs j)])
    | none => (s, [Effect.proxySet ""])

/-! ## Proxy accept loop (`Session.Proxy`) -/

/-- Outcome of one accepted inbound connection. -/
inductive ConnOutcome where
  | closedNoRelay
  | dialFailedClosed
  | relayed (backend : String)
  deriving DecidableEq

/-- The per-connection decision of the accept loop: an empty target closes
the inbound connection immediately; otherwise the backend is dialled and,
on success, both directions are relayed. -/
def acceptConn (proxyAddr : String) (dialOk : Bool) : ConnOutcome :=
  if proxyAddr = "" then ConnOutcome.closedNoRelay
  else if dialOk then ConnOutcome.relayed proxyAddr
  else ConnOutcome.dialFailedClosed

/-- Bytes the relay forwards from the client to the backend. -/
def bytesToBackend (o : ConnOutcome) (inbound : List Nat) : List Nat :=
  match o with
  | ConnOutcome.relayed _ => inbound
  | _ => []

/-- Bytes the relay forwards from the backend to the client. -/
def bytesToClient (o : ConnOutcome) (outbound : List Nat) : List Nat :=
  match o with
  | ConnOutcome.relayed _ => outbound
  | _ => []

/-- Console-command effects (`Game.Command` calls made directly by the
dispatch handlers). -/
def isCommandEffect : Effect → Bool
  | Effect.command _ _ => true
  | _ => false

/-! ## Helper lemmas -/

theorem findReady_mem {r : Nat → Bool} {l : List Nat} {j : Nat}
    (h : findReady r l = some j) : j ∈ l ∧ r j = true := by
  induction l with
  | nil => simp [findReady] at h
  | cons i rest ih =>
    rw [findReady] at h
    by_cases hi : r i = true
    · simp [hi] at h
      subst h
      exact ⟨List.mem_cons_self _ _, hi⟩
    · simp [hi] at h
      rcases ih h with ⟨hmem, hr⟩
      exact ⟨List.mem_cons_of_mem _ hmem, hr⟩

theorem findReady_isSome {r : Nat → Bool} {l : List Nat} {i : Nat}
    (hi : i ∈ l) (hr : r i = true) : (findReady r l).isSome = true := by
  induction l with
  | nil => simp at hi
  | cons a rest ih =>
    rw [findReady]
    by_cases ha : r a = true
    · simp [ha]
    · rcases List.mem_cons.mp hi with rfl | hmem
      · exact absurd hr ha
      · simp [ha]
        exact ih hmem

theorem classify_eq_firstMatch (text : String) :
    classify text = firstMatch codeRules text := by
  simp only [classify, codeRules, firstMatch]

/-! ## Claim theorems -/

/-- C6: an event whose replica id is at least the configured replica count
is dropped: the session state is unchanged and no effect is produced. -/
theorem invalid_id_dropped (s : SessionState) (e : Event)
    (h : s.numReplicas ≤ e.gameId) : step s e = (s, []) := by
  unfold step stepOpt
  simp [h]

/-- Witness for `invalid_id_dropped`. -/
theorem invalid_id_dropped_witness :
    step ⟨2, fun _ => true, fun _ => "", some 0, "overworld", 4, 1⟩
        ⟨2, 10, "nether", ""⟩ =
      (⟨2, fun _ => true, fun _ => "", some 0, "overworld", 4, 1⟩, []) :=
  invalid_id_dropped _ _ (by decide)

/-- C5: a non-`generated` event whose replica id does not match the active
replica (in particular when no replica is active) is dropped with no state
mutation and no effect; a `generated` event with a valid id is accepted
from any replica: its replica is marked ready and refreshed while phase,
attempt counter, active pointer and start time are untouched. -/
theorem nonactive_dropped_generated_accepted (s : SessionState) (e : Event) :
    (e.type ≠ "generated" → s.active ≠ some e.gameId → step s e = (s, [])) ∧
    (e.type = "generated" → e.gameId < s.numReplicas →
      (step s e).1.ready e.gameId = true ∧
      (step s e).1.state = s.state ∧
      (step s e).1.attempt = s.attempt ∧
      (step s e).1.active = s.active ∧
      (step s e).1.timeStart = s.timeStart ∧
      (step s e).2 = [Effect.refresh e.gameId]) := by
  constructor
  · intro hty hact
    unfold step stepOpt
    by_cases hid : s.numReplicas ≤ e.gameId
    · simp [hid]
    · simp [hid, hact, hty]
  · intro hty hid
    unfold step stepOpt dispatch
    simp [hty, Nat.not_le.mpr hid]

/-- Witness for `nonactive_dropped_generated_accepted`. -/
theorem nonactive_dropped_generated_accepted_witness :
    step ⟨2, fun _ => true, fun _ => "", some 0, "overworld", 4, 1⟩
        ⟨1, 10, "nether", ""⟩ =
      (⟨2, fun _ => true, fun _ => "", some 0, "overworld", 4, 1⟩, []) ∧
    (step ⟨2, fun _ => false, fun _ => "", some 0, "", 4, 1⟩
        ⟨1, 10, "generated", ""⟩).1.ready 1 = true :=
  ⟨(nonactive_dropped_generated_accepted _ _).1 (by decide) (by decide),
   ((nonactive_dropped_generated_accepted _ _).2 (by decide) (by decide)).1⟩

/-- C4: a `reset` event that passes validation increments the attempt
counter by exactly one, returns the phase to idle and clears the active
replica, whatever the current phase. -/
theorem reset_handler (s : SessionState) (e : Event)
    (hid : e.gameId < s.numReplicas) (hact : s.active = some e.gameId)
    (hty : e.type = "cmd.reset") :
    (step s e).1.attempt = s.attempt + 1 ∧
    (step s e).1.state = "" ∧
    (step s e).1.active = none := by
  unfold step stepOpt dispatch
  simp [hact, hty, Nat.not_le.mpr hid]

/-- Witness for `reset_handler`. -/
theorem reset_handler_witness :
    (step ⟨1, fun _ => true, fun _ => "", some 0, "credits", 7, 3⟩
        ⟨0, 50, "cmd.reset", ""⟩).1.attempt = 8 ∧
    (step ⟨1, fun _ => true, fun _ => "", some 0, "credits", 7, 3⟩
        ⟨0, 50, "cmd.reset", ""⟩).1.state = "" ∧
    (step ⟨1, fun _ => true, fun _ => "", some 0, "credits", 7, 3⟩
        ⟨0, 50, "cmd.reset", ""⟩).1.active = none :=
  reset_handler _ _ (by decide) rfl rfl

/-- C8: a connection accepted while the proxy target is empty is closed
immediately and no byte is relayed in either direction. -/
theorem empty_target_closes (dialOk : Bool) (inbound outbound : List Nat) :
    acceptConn "" dialOk = ConnOutcome.closedNoRelay ∧
    bytesToBackend (acceptConn "" dialOk) inbound = [] ∧
    bytesToClient (acceptConn "" dialOk) outbound = [] := by
  refine ⟨rfl, rfl, rfl⟩

/-- C1 counterexample: with two replicas, both ready (both have reported
`generated`) and none active, the map key enumeration `[1, 0]` is a valid
iteration order of the replica map, yet the selection step promotes
replica 1 — not replica 0, the lowest ready id.  The claim that the
promoted replica is always the lowest-id ready one is therefore false of
the code, which takes the first ready replica in Go's unspecified map
iteration order. -/
theorem selection_not_lowest_id :
    ([1, 0].Perm (List.range 2)) ∧
    (⟨2, fun _ => true, fun _ => "", none, "", 0, 0⟩ : SessionState).ready 0 = true ∧
    (⟨2, fun _ => true, fun _ => "", none, "", 0, 0⟩ : SessionState).ready 1 = true ∧
    (selectActive [1, 0] ⟨2, fun _ => true, fun _ => "", none, "", 0, 0⟩).1.active
      = some 1 ∧
    (1 : Nat) ≠ 0 :=
  ⟨by decide, rfl, rfl, rfl, by decide⟩

/-- C1 (amended): once all replicas are ready and none is active, the
selection step promotes exactly one replica, which is ready; it is the
first ready replica in the map iteration order, so when that order happens
to be ascending by id it is the lowest-id replica. -/
theorem select_promotes_first_ready (s : SessionState) (order : List Nat)
    (hact : s.active = none)
    (hperm : order.Perm (List.range s.numReplicas))
    (hready : ∀ i, i < s.numReplicas → s.ready i = true)
    (hN : 1 ≤ s.numReplicas) :
    ∃ j, (selectActive order s).1.active = some j ∧
      j < s.numReplicas ∧ s.ready j = true ∧
      (order = List.range s.numReplicas → j = 0) := by
  have h0mem : (0 : Nat) ∈ order :=
    hperm.mem_iff.mpr (List.mem_range.mpr hN)
  have h0 : s.ready 0 = true := hready 0 hN
  obtain ⟨j, hj⟩ := Option.isSome_iff_exists.mp (findReady_isSome h0mem h0)
  obtain ⟨hjmem, hjr⟩ := findReady_mem hj
  refine ⟨j, ?_, ?_, hjr, ?_⟩
  · simp [selectActive, hact, hj]
  · exact List.mem_range.mp (hperm.mem_iff.mp hjmem)
  · intro hord
    subst hord
    obtain ⟨m, hm⟩ := Nat.exists_eq_add_of_le hN
    rw [Nat.add_comm] at hm
    rw [hm, List.range_succ_eq_map, findReady, if_pos h0] at hj
    exact (Option.some_inj.mp hj).symm

/-- Witness for `select_promotes_first_ready`. -/
theorem select_promotes_first_ready_witness :
    ∃ j, (selectActive [0, 1]
            ⟨2, fun _ => true, fun _ => "", none, "", 0, 0⟩).1.active = some j ∧
      j < 2 ∧
      (⟨2, fun _ => true, fun _ => "", none, "", 0, 0⟩ : SessionState).ready j
        = true ∧
      ([0, 1] = List.range 2 → j = 0) :=
  select_promotes_first_ready _ [0, 1] rfl (by decide) (fun i _ => rfl)
    (by decide)

/-- C3 counterexample: the line `[Server: Set the time to 0]` (the server's
feedback after a clock reset) matches no rule of the six-rule table the
specification gives for the parser, so under the claim the parser would
produce no event — yet `HandleLog` produces a `cmd.retime` event for it. -/
theorem parser_spec_table_counterexample :
    handleLog 0 "[13:05:21] [Server thread/INFO]: [Server: Set the time to 0]"
      = some ⟨0, 47121, "cmd.retime", "[Server: Set the time to 0]"⟩ ∧
    firstMatch specRules "[Server: Set the time to 0]" = none := by
  exact ⟨by decide, by decide⟩

/-- C3 (amended): for every line the parser produces at most one event, by
first-match-wins evaluation of the fixed ordered seven-rule table of the
implementation — reset phrase, clock-reset feedback phrase (`cmd.retime`),
generation-complete phrase, player-joined phrase, nether-entry phrase,
end-entry phrase, credits phrase; every emitted event's kind is the first
rule of that table whose pattern occurs in the message. -/
theorem parser_rule_table :
    (∀ text : String, classify text = firstMatch codeRules text) ∧
    (∀ (id : Nat) (line : String) (e : Event), handleLog id line = some e →
      firstMatch codeRules e.payload = some e.type) := by
  refine ⟨classify_eq_firstMatch, ?_⟩
  intro id line e h
  unfold handleLog at h
  rcases henv : parseEnvelope line with _ | ⟨d1, d2, d3, msg⟩ <;>
      rw [henv] at h <;> dsimp only at h
  · exact absurd h (by simp)
  · rcases hck : parseClock d1 d2 d3 with _ | t <;>
        rw [hck] at h <;> dsimp only at h
    · exact absurd h (by simp)
    · rcases hcl : classify msg with _ | typ <;>
          rw [hcl] at h <;> dsimp only at h
      · exact absurd h (by simp)
      · have he : e = ⟨id, t, typ, msg⟩ := (Option.some_inj.mp h).symm
        subst he
        rw [← classify_eq_firstMatch]
        exact hcl

/-- Witness for `parser_rule_table`. -/
theorem parser_rule_table_witness :
    classify "Steve joined the game" =
      firstMatch codeRules "Steve joined the game" ∧
    firstMatch codeRules "Steve joined the game" = some "login" :=
  ⟨(parser_rule_table).1 "Steve joined the game",
   (parser_rule_table).2 3 "[09:10:11] [Server thread/INFO]: Steve joined the game"
     ⟨3, 33011, "login", "Steve joined the game"⟩ (by decide)⟩

/-- C7: a validated `login` event mutates state only from the idle phase:
it then moves the phase to overworld, records the event timestamp as the
attempt start time, broadcasts the attempt number, and issues exactly the
two world-setup console commands (clock reset, autosave off) to the active
replica; from any other phase it changes nothing and emits nothing. -/
theorem login_handler (s : SessionState) (e : Event)
    (hid : e.gameId < s.numReplicas) (hact : s.active = some e.gameId)
    (hty : e.type = "login") :
    (s.state = "" →
      (step s e).1.state = "overworld" ∧
      (step s e).1.timeStart = e.timestamp ∧
      (step s e).1.attempt = s.attempt ∧
      (step s e).1.active = s.active ∧
      (step s e).1.ready = s.ready ∧
      (step s e).2 =
        [Effect.sayMsg e.gameId ("attempt #" ++ toString s.attempt) "green",
         Effect.command e.gameId "/time set 0",
         Effect.command e.gameId "/save-off"] ∧
      (step s e).2.filter isCommandEffect =
        [Effect.command e.gameId "/time set 0",
         Effect.command e.gameId "/save-off"] ∧
      ((step s e).2.filter isCommandEffect).length = 2) ∧
    (s.state ≠ "" → step s e = (s, [])) := by
  constructor
  · intro hidle
    unfold step stepOpt dispatch
    simp [hact, hty, Nat.not_le.mpr hid, hidle, isCommandEffect]
  · intro hne
    unfold step stepOpt dispatch
    simp [hact, hty, Nat.not_le.mpr hid, hne]

/-- Witness for `login_handler`. -/
theorem login_handler_witness :
    (step ⟨1, fun _ => true, fun _ => "", some 0, "", 4, 0⟩
        ⟨0, 99, "login", "p"⟩).1.state = "overworld" ∧
    (step ⟨1, fun _ => true, fun _ => "", some 0, "", 4, 0⟩
        ⟨0, 99, "login", "p"⟩).1.timeStart = 99 ∧
    ((step ⟨1, fun _ => true, fun _ => "", some 0, "", 4, 0⟩
        ⟨0, 99, "login", "p"⟩).2.filter isCommandEffect).length = 2 ∧
    step ⟨1, fun _ => true, fun _ => "", some 0, "nether", 4, 0⟩
        ⟨0, 99, "login", "p"⟩ =
      (⟨1, fun _ => true, fun _ => "", some 0, "nether", 4, 0⟩, []) := by
  refine ⟨?_, ?_, ?_, ?_⟩
  · exact ((login_handler _ _ (by decide) rfl rfl).1 rfl).1
  · exact ((login_handler _ _ (by decide) rfl rfl).1 rfl).2.1
  · exact ((login_handler _ _ (by decide) rfl rfl).1 rfl).2.2.2.2.2.2.2
  · exact (login_handler _ _ (by decide) rfl rfl).2 (by decide)

/-- C9: the parser classifies any message containing the clock-reset
feedback phrase (and not the reset command phrase, the only earlier rule)
as `cmd.retime`, regardless of the later generation-complete, login,
nether, end and credits patterns; a message containing the reset command
phrase is classified `cmd.reset` even when the feedback phrase is also
present, placing the retime rule second.  The dispatch switch has no case
for `cmd.retime`, so a validated `cmd.retime` event leaves the entire
session state unchanged and produces no effect. -/
theorem retime_rule_dispatch_noop :
    (∀ text : String, strContains text "> rr" = false →
      strContains text ": Set the time to 0]" = true →
      classify text = some "cmd.retime") ∧
    (∀ text : String, strContains text "> rr" = true →
      classify text = some "cmd.reset") ∧
    (∀ (s : SessionState) (e : Event), e.gameId < s.numReplicas →
      s.active = some e.gameId → e.type = "cmd.retime" →
      step s e = (s, [])) := by
  refine ⟨?_, ?_, ?_⟩
  · intro text h1 h2
    unfold classify
    simp [h1, h2]
  · intro text h1
    unfold classify
    simp [h1]
  · intro s e hid hact hty
    unfold step stepOpt dispatch
    simp [hact, hty, Nat.not_le.mpr hid]

/-- Witness for `retime_rule_dispatch_noop`. -/
theorem retime_rule_dispatch_noop_witness :
    classify "[Not Steve: Set the time to 0]" = some "cmd.retime" ∧
    classify "<Steve> rr" = some "cmd.reset" ∧
    step ⟨1, fun _ => true, fun _ => "", some 0, "overworld", 2, 5⟩
        ⟨0, 77, "cmd.retime", ""⟩ =
      (⟨1, fun _ => true, fun _ => "", some 0, "overworld", 2, 5⟩, []) :=
  ⟨retime_rule_dispatch_noop.1 _ (by decide) (by decide),
   retime_rule_dispatch_noop.2.1 _ (by decide),
   retime_rule_dispatch_noop.2.2 _ _ (by decide) rfl rfl⟩

/-- C10: whenever an event of a kind other than `generated` reaches the
dispatch switch, the active-replica pointer is non-nil and holds exactly
the event's replica id; consequently the event step never dereferences a
nil active pointer (`stepOpt` never returns `none`). -/
theorem dispatch_safety (s : SessionState) (e : Event) :
    (accepted s e → e.type ≠ "generated" → s.active = some e.gameId) ∧
    (stepOpt s e).isSome = true := by
  constructor
  · intro hacc hty
    rcases hacc with ⟨_, hguard⟩
    by_cases hA : s.active = some e.gameId
    · exact hA
    · exact absurd ⟨Or.inr hA, hty⟩ hguard
  · unfold stepOpt
    by_cases h1 : s.numReplicas ≤ e.gameId
    · simp [h1]
    · by_cases h2 : (s.active = none ∨ s.active ≠ some e.gameId) ∧
          e.type ≠ "generated"
      · simp [h1, h2]
      · by_cases hg : e.type = "generated"
        · simp [h1, h2, dispatch, hg]
        · have hA : s.active = some e.gameId := by
            by_cases hA : s.active = some e.gameId
            · exact hA
            · exact absurd ⟨Or.inr hA, hg⟩ h2
          simp only [h1, h2, if_neg, if_false]
          unfold dispatch
          rw [hA]
          split_ifs <;> simp

/-- Witness for `dispatch_safety`. -/
theorem dispatch_safety_witness :
    (⟨1, fun _ => true, fun _ => "", some 0, "", 4, 0⟩ : SessionState).active
      = some 0 ∧
    (stepOpt ⟨1, fun _ => true, fun _ => "", some 0, "", 4, 0⟩
      ⟨0, 99, "login", "p"⟩).isSome = true :=
  ⟨(dispatch_safety ⟨1, fun _ => true, fun _ => "", some 0, "", 4, 0⟩
      ⟨0, 99, "login", "p"⟩).1 (by decide) (by decide),
   (dispatch_safety _ _).2⟩

/-- C2: one event step moves the phase at most one step forward along
idle, overworld, nether, end, credits — `login` only from idle, and
`nether`, `end`, `credits` only from the immediately preceding phase; the
only transition back to idle is a `reset` event; an event implying a
transition from the wrong phase leaves the phase unchanged.  Universally
quantified over the state, this covers every event sequence the loop
processes. -/
theorem phase_machine (s : SessionState) (e : Event) :
    ((step s e).1.state = s.state ∨
     (e.type = "cmd.reset" ∧ (step s e).1.state = "") ∨
     (e.type = "login" ∧ s.state = "" ∧ (step s e).1.state = "overworld") ∨
     (e.type = "nether" ∧ s.state = "overworld" ∧
       (step s e).1.state = "nether") ∨
     (e.type = "end" ∧ s.state = "nether" ∧ (step s e).1.state = "end") ∨
     (e.type = "credits" ∧ s.state = "end" ∧
       (step s e).1.state = "credits")) ∧
    (s.state ≠ "" → (step s e).1.state = "" → e.type = "cmd.reset") ∧
    (e.type = "login" → s.state ≠ "" → (step s e).1.state = s.state) ∧
    (e.type = "nether" → s.state ≠ "overworld" →
      (step s e).1.state = s.state) ∧
    (e.type = "end" → s.state ≠ "nether" → (step s e).1.state = s.state) ∧
    (e.type = "credits" → s.state ≠ "end" → (step s e).1.state = s.state) := by
  by_cases hu : (step s e).1.state = s.state
  · refine ⟨Or.inl hu, ?_, fun _ _ => hu, fun _ _ => hu, fun _ _ => hu,
      fun _ _ => hu⟩
    intro hne hz
    rw [hu] at hz
    exact absurd hz hne
  · have h1 : ¬ s.numReplicas ≤ e.gameId := by
      intro h1
      exact hu (by unfold step stepOpt; simp [h1])
    have h2 : ¬ ((s.active = none ∨ s.active ≠ some e.gameId) ∧
        e.type ≠ "generated") := by
      intro h2
      exact hu (by unfold step stepOpt; simp [h1, h2])
    have hA : e.type ≠ "generated" → s.active = some e.gameId := by
      intro hg
      by_cases hA : s.active = some e.gameId
      · exact hA
      · exact absurd ⟨Or.inr hA, hg⟩ h2
    have hstep : step s e = (dispatch s e).getD (s, []) := by
      unfold step stepOpt
      simp [h1, h2]
    by_cases hr : e.type = "cmd.reset"
    · have ha := hA (by rw [hr]; decide)
      have hst : (step s e).1.state = "" := by
        rw [hstep]; unfold dispatch; simp [hr, ha]
      refine ⟨Or.inr (Or.inl ⟨hr, hst⟩), fun _ _ => hr, ?_, ?_, ?_, ?_⟩ <;>
        · intro hx _
          rw [hr] at hx
          exact absurd hx (by decide)
    by_cases hp : e.type = "cmd.player"
    · have ha := hA (by rw [hp]; decide)
      exact absurd (by rw [hstep]; unfold dispatch; simp [hr, hp, ha]) hu
    by_cases hpe : e.type = "cmd.pearl"
    · have ha := hA (by rw [hpe]; decide)
      refine absurd ?_ hu
      rw [hstep]
      unfold dispatch
      simp [hr, hp, hpe, ha]
    by_cases hg : e.type = "generated"
    · refine absurd ?_ hu
      rw [hstep]
      unfold dispatch
      simp [hr, hp, hpe, hg]
    by_cases hl : e.type = "login"
    · have ha := hA hg
      by_cases hidle : s.state = ""
      · have hst : (step s e).1.state = "overworld" := by
          rw [hstep]; unfold dispatch
          simp [hr, hp, hpe, hg, hl, ha, hidle]
        refine ⟨Or.inr (Or.inr (Or.inl ⟨hl, hidle, hst⟩)),
          fun hne _ => absurd hidle hne, fun _ hne => absurd hidle hne,
          ?_, ?_, ?_⟩ <;>
          · intro hx _
            rw [hl] at hx
            exact absurd hx (by decide)
      · refine absurd ?_ hu
        rw [hstep]
        unfold dispatch
        simp [hr, hp, hpe, hg, hl, ha, hidle]
    by_cases hn : e.type = "nether"
    · have ha := hA hg
      by_cases how : s.state = "overworld"
      · have hst : (step s e).1.state = "nether" := by
          rw [hstep]; unfold dispatch
          simp [hr, hp, hpe, hg, hl, hn, ha, how]
        refine ⟨Or.inr (Or.inr (Or.inr (Or.inl ⟨hn, how, hst⟩))), ?_,
          ?_, fun _ hne => absurd how hne, ?_, ?_⟩
        · intro _ hz
          rw [hst] at hz
          exact absurd hz (by decide)
        all_goals
          intro hx _
          rw [hn] at hx
          exact absurd hx (by decide)
      · refine absurd ?_ hu
        rw [hstep]
        unfold dispatch
        simp [hr, hp, hpe, hg, hl, hn, ha, how]
    by_cases hend : e.type = "end"
    · have ha := hA hg
      by_cases hnee : s.state = "nether"
      · have hst : (step s e).1.state = "end" := by
          rw [hstep]; unfold dispatch
          simp [hr, hp, hpe, hg, hl, hn, hend, ha, hnee]
        refine ⟨Or.inr (Or.inr (Or.inr (Or.inr (Or.inl ⟨hend, hnee, hst⟩)))),
          ?_, ?_, ?_, fun _ hne => absurd hnee hne, ?_⟩
        · intro _ hz
          rw [hst] at hz
          exact absurd hz (by decide)
        all_goals
          intro hx _
          rw [hend] at hx
          exact absurd hx (by decide)
      · refine absurd ?_ hu
        rw [hstep]
        unfold dispatch
        simp [hr, hp, hpe, hg, hl, hn, hend, ha, hnee]
    by_cases hc : e.type = "credits"
    · have ha := hA hg
      by_cases hce : s.state = "end"
      · have hst : (step s e).1.state = "credits" := by
          rw [hstep]; unfold dispatch
          simp [hr, hp, hpe, hg, hl, hn, hend, hc, ha, hce]
        refine ⟨Or.inr (Or.inr (Or.inr (Or.inr (Or.inr ⟨hc, hce, hst⟩)))),
          ?_, ?_, ?_, ?_, fun _ hne => absurd hce hne⟩
        · intro _ hz
          rw [hst] at hz
          exact absurd hz (by decide)
        all_goals
          intro hx _
          rw [hc] at hx
          exact absurd hx (by decide)
      · refine absurd ?_ hu
        rw [hstep]
        unfold dispatch
        simp [hr, hp, hpe, hg, hl, hn, hend, hc, ha, hce]
    · refine absurd ?_ hu
      rw [hstep]
      unfold dispatch
      simp [hr, hp, hpe, hg, hl, hn, hend, hc]

/-- Witness for `phase_machine`. -/
theorem phase_machine_witness :
    (step ⟨1, fun _ => true, fun _ => "", some 0, "end", 0, 0⟩
        ⟨0, 5, "nether", ""⟩).1.state = "end" :=
  (phase_machine ⟨1, fun _ => true, fun _ => "", some 0, "end", 0, 0⟩
      ⟨0, 5, "nether", ""⟩).2.2.2.1 rfl (by decide)

end Mcspeedrun
